import Mathlib

/-!
Verification development for the `gitsign` program (`src/main.rs`).

The program loads an SSH private key (`load_key`, with a password retry
loop `decrypt`), and then creates a signed initial commit twice: once
through the `git2` bindings (`with_git2`, the IndexBackend of the spec)
and once through the pure-Rust `gix` crate (`with_gix`, the
DirectObjectBackend).  Commits are modelled as structured records, the
git object encoding as a pure function on them, and the external
library surfaces (ssh-key signing, reference transactions, branch
creation, directory cleanup) as explicit Lean functions faithful to the
interfaces the source relies on.
-/

namespace Gitsign

/-! ### Characters, whitespace, trimming -/

/-- Whitespace test covering the ASCII whitespace characters relevant to
PEM/armored text, as used by Rust's `str::trim`. -/
def isWs (c : Char) : Bool :=
  (c == ' ') || (c == '\t') || (c == '\n') || (c == '\r')

/-- Model of Rust's `str::trim`: drop leading and trailing whitespace. -/
def trim (s : List Char) : List Char :=
  ((s.dropWhile isWs).reverse.dropWhile isWs).reverse

/-- Header-value folding of the git commit encoding: every embedded
newline is rendered as a newline followed by exactly one space, so
continuation lines of a multi-line header value stay distinguishable
from the next header. -/
def foldValue : List Char → List Char
  | [] => []
  | c :: t => (if c = '\n' then ['\n', ' '] else [c]) ++ foldValue t

/-- Concatenation of the rendering of each element in order. -/
def concatMap (f : α → List Char) : List α → List Char
  | [] => []
  | a :: t => f a ++ concatMap f t

/-- True when the list does not end in a whitespace character
(vacuously true for the empty list). -/
def noTrailWsB (l : List Char) : Bool :=
  l.getLast?.all fun c => !isWs c

/-! ### Data model: commit records (gix `objs::Commit`) -/

/-- A timestamp with UTC offset, as carried by a git actor signature. -/
structure Time where
  seconds : Int
  offset : Int
deriving DecidableEq

/-- A git actor (author/committer): name, email, timestamp. -/
structure Actor where
  name : String
  email : String
  time : Time
deriving DecidableEq

/-- The commit record as constructed by `with_gix` in `src/main.rs`:
tree id, ordered parents, author, committer, optional encoding, ordered
extra headers (key/value byte strings), and the message. -/
structure Commit where
  tree : Nat
  parents : List Nat
  author : Actor
  committer : Actor
  encoding : Option String
  extra_headers : List (List Char × List Char)
  message : List Char
deriving DecidableEq

/-- The `gpgsig` header key pushed by both backends. -/
def gpgsigKey : List Char := ['g', 'p', 'g', 's', 'i', 'g']

/-- Rendering of an object id inside the commit encoding.  Object ids
are abstracted as naturals; the rendering only needs to be a function
of the id. -/
def encObjId (n : Nat) : List Char := (toString n).toList

/-- Rendering of a timestamp: seconds, space, offset. -/
def encTime (t : Time) : List Char :=
  (toString t.seconds).toList ++ [' '] ++ (toString t.offset).toList

/-- Rendering of an actor line payload: `name <email> time`. -/
def encActor (a : Actor) : List Char :=
  a.name.toList ++ [' ', '<'] ++ a.email.toList ++ ['>', ' '] ++ encTime a.time

/-- Rendering of the optional `encoding` header. -/
def encOpt : Option String → List Char
  | none => []
  | some e => "encoding ".toList ++ e.toList ++ ['\n']

/-- Rendering of one extra header: key, space, folded value, newline. -/
def encHeader (h : List Char × List Char) : List Char :=
  h.1 ++ [' '] ++ foldValue h.2 ++ ['\n']

/-- The git commit object encoding (gix `Commit::write_to`): tree line,
parent lines in order, author, committer, optional encoding, extra
headers in insertion order with folded values, a blank line, then the
message verbatim. -/
def encodeCommit (c : Commit) : List Char :=
  "tree ".toList ++ encObjId c.tree ++ ['\n']
    ++ concatMap (fun p => "parent ".toList ++ encObjId p ++ ['\n']) c.parents
    ++ "author ".toList ++ encActor c.author ++ ['\n']
    ++ "committer ".toList ++ encActor c.committer ++ ['\n']
    ++ encOpt c.encoding
    ++ concatMap encHeader c.extra_headers
    ++ ['\n'] ++ c.message

/-- Modelled from the spec: the content-addressable object hash, an
arbitrary fixed deterministic function of the object bytes. -/
def hashObj (l : List Char) : Nat :=
  l.foldl (fun a c => (a * 131 + c.toNat) % (2 ^ 160)) 7

/-- The id of the empty tree object (content is the empty byte string). -/
def emptyTreeId : Nat := hashObj []

/-! ### Signature engine (ssh-key `PrivateKey::sign` / `SshSig::to_pem`)

Modelled from the spec: the ssh-key crate is external to the
repository; a signature is modelled as a record of the signing key, the
exact payload bytes that were signed, and its armored PEM rendering
(an arbitrary function of the payload, supplied as a parameter). -/

/-- An (unlocked) signing key, identified abstractly. -/
structure Key where
  id : Nat
deriving DecidableEq

/-- A produced detached signature: the key that made it, the payload it
was computed over, and the armored PEM text. -/
structure ArmoredSig where
  key : Key
  signedPayload : List Char
  armor : List Char
deriving DecidableEq

/-- Modelled from the spec: `key.sign("git", HashAlg::Sha256, payload)`
followed by `to_pem(LineEnding::LF)`.  `armorF` stands for the PEM
rendering. -/
def mkSig (k : Key) (armorF : List Char → List Char) (payload : List Char) : ArmoredSig :=
  ⟨k, payload, armorF payload⟩

/-- Modelled from the spec: verification of a detached signature
succeeds exactly on the key that produced it and the payload it was
computed over. -/
def verify (pk : Key) (s : ArmoredSig) (data : List Char) : Bool :=
  decide (s.key = pk ∧ s.signedPayload = data)

/-! ### Commit assembler (shared shape of both backends) -/

/-- Everything produced while assembling a signed commit: the unsigned
draft, its encoding (the signed payload), the signature, the commit
with the `gpgsig` header appended, and its encoding (the stored bytes). -/
structure Assembled where
  draft : Commit
  payload : List Char
  sig : ArmoredSig
  signedCommit : Commit
  signedBytes : List Char
deriving DecidableEq

/-- Assembly of a signed commit as both backends perform it: encode the
draft, sign those bytes, append the single `gpgsig` header carrying the
trimmed armored signature, and re-encode. -/
def assembleSigned (draft : Commit) (k : Key) (armorF : List Char → List Char) : Assembled :=
  let payload := encodeCommit draft
  let s := mkSig k armorF payload
  let signedCommit : Commit :=
    { draft with extra_headers := draft.extra_headers ++ [(gpgsigKey, trim s.armor)] }
  ⟨draft, payload, s, signedCommit, encodeCommit signedCommit⟩

/-- The commit draft built by `with_gix`: empty tree, no parents,
author = committer = Bob at the ambient time, no encoding, no extra
headers yet, message `Initial commit`. -/
def gixDraft (t : Time) : Commit :=
  { tree := emptyTreeId
    parents := []
    author := ⟨"Bob", "bob@example.com", t⟩
    committer := ⟨"Bob", "bob@example.com", t⟩
    encoding := none
    extra_headers := []
    message := "Initial commit".toList }

/-- The commit draft whose encoding `with_git2` obtains from
`commit_create_buffer`: same fields as the gix draft (author =
committer = Bob, empty tree, no parents, message `Initial commit`). -/
def git2Draft (t : Time) : Commit := gixDraft t

/-- The signing pipeline of `with_gix` (lines 89-101 of
`src/main.rs`): encode the unsigned commit, sign it, push the
`gpgsig` header with the trimmed signature, re-encode. -/
def gixAssemble (k : Key) (t : Time) (armorF : List Char → List Char) : Assembled :=
  assembleSigned (gixDraft t) k armorF

/-- The signing pipeline of `with_git2` (lines 35-42 of `src/main.rs`):
`commit_create_buffer` yields the unsigned bytes, those are signed, and
`commit_signed` stores the buffer with the trimmed signature attached
as the `gpgsig` header.  Modelled from the spec: `commit_signed` is
internal to libgit2; its output is the commit record with the header
attached, re-encoded. -/
def git2Assemble (k : Key) (t : Time) (armorF : List Char → List Char) : Assembled :=
  assembleSigned (git2Draft t) k armorF

/-! ### Reference stores (gix `edit_reference`, git2 `branch`) -/

/-- A reference store: mapping from reference name to target object id. -/
def RefStore : Type := String → Option Nat

/-- Errors surfaced by the repository backends. -/
inductive GitErr where
  | RefConflict
  | BranchExists
deriving DecidableEq

/-- The precondition of a transactional reference edit. -/
inductive PreviousValue where
  | MustNotExist
  | MustMatch (old : Nat)
  | Any
deriving DecidableEq

/-- The reflog part of a reference edit. -/
structure LogChange where
  force_create_reflog : Bool
  message : List Char
deriving DecidableEq

/-- A single reference edit: name, precondition, new target, reflog. -/
structure RefEdit where
  name : String
  expected : PreviousValue
  newTarget : Nat
  log : LogChange
deriving DecidableEq

/-- Modelled from the spec: gix `reference::log::message` renders the
reflog line from the action, the commit message, and the parent count
(an `(initial)` marker for a parentless commit). -/
def logMessage (action : String) (message : List Char) (parentCount : Nat) : List Char :=
  action.toList ++ (if parentCount = 0 then " (initial)".toList else [])
    ++ ": ".toList ++ message

/-- The `RefEdit` built by `with_gix` (lines 103-115 of `src/main.rs`):
update `HEAD` to the signed commit id, precondition `MustNotExist`,
reflog message from action `commit`, the commit message, and zero
parents. -/
def headEdit (target : Nat) (message : List Char) : RefEdit :=
  { name := "HEAD"
    expected := PreviousValue.MustNotExist
    newTarget := target
    log := { force_create_reflog := false, message := logMessage "commit" message 0 } }

/-- Modelled from the spec: the transactional reference edit.  The
precondition is checked against the store and the write applied only
when it holds; `MustNotExist` fails with `RefConflict` when the
reference already exists and the store is left unchanged. -/
def editReference (store : RefStore) (e : RefEdit) : Except GitErr RefStore :=
  match e.expected with
  | PreviousValue.MustNotExist =>
    match store e.name with
    | some _ => Except.error GitErr.RefConflict
    | none => Except.ok (fun n => if n = e.name then some e.newTarget else store n)
  | PreviousValue.MustMatch old =>
    match store e.name with
    | some cur =>
      if cur = old then
        Except.ok (fun n => if n = e.name then some e.newTarget else store n)
      else Except.error GitErr.RefConflict
    | none => Except.error GitErr.RefConflict
  | PreviousValue.Any =>
    Except.ok (fun n => if n = e.name then some e.newTarget else store n)

/-- Whether an `Except` result is a success. -/
def isOkE : Except GitErr RefStore → Bool
  | Except.ok _ => true
  | Except.error _ => false

/-- The error carried by an `Except` result, if any. -/
def errOf : Except GitErr RefStore → Option GitErr
  | Except.ok _ => none
  | Except.error e => some e

/-- The full name of a local branch. -/
def branchName (n : String) : String := "refs/heads/" ++ n

/-- Modelled from the spec: git2 `Repository::branch`.  Without
`force` it refuses to touch an existing branch; with `force` it
creates or overwrites unconditionally. -/
def branchCreate (store : RefStore) (n : String) (target : Nat) (force : Bool) :
    Except GitErr RefStore :=
  match store (branchName n), force with
  | some _, false => Except.error GitErr.BranchExists
  | _, _ => Except.ok (fun m => if m = branchName n then some target else store m)

/-! ### Key store (`load_key` and `decrypt` in `src/main.rs`) -/

/-- Errors of the key-loading path. -/
inductive KeyErr where
  | KeyNotFound
  | KeyParseError
  | Cancelled
deriving DecidableEq

/-- An encrypted private key: the password that unlocks it and the
plain key obtained on successful decryption.  Modelled from the spec:
ssh-key decryption succeeds exactly on the right password. -/
structure EncKey where
  password : String
  plain : Key
deriving DecidableEq

/-- A parsed OpenSSH private key, either plain or encrypted. -/
inductive PrivateKey where
  | plain (k : Key)
  | encrypted (e : EncKey)
deriving DecidableEq

/-- One outcome of the interactive password prompt: a password, or the
prompt failing (user interrupt / CTRL-C), which `decrypt` propagates. -/
inductive PromptOutcome where
  | cancel
  | pw (p : String)
deriving DecidableEq

/-- The retry loop of `decrypt` in `src/main.rs`, run against a finite
list of prompt outcomes.  `none` means the loop consumed every outcome
without returning (it is still prompting); `some` is the value the loop
returns: the unlocked key on the first correct password, or the
propagated prompt failure. -/
def decrypt (key : EncKey) : List PromptOutcome → Option (Except KeyErr Key)
  | [] => none
  | PromptOutcome.cancel :: _ => some (Except.error KeyErr.Cancelled)
  | PromptOutcome.pw p :: rest =>
    if p = key.password then some (Except.ok key.plain) else decrypt key rest

/-- The three well-known key files of `load_key`, in lookup order. -/
structure SshDir where
  id_ed25519 : Option (List Nat)
  id_ecdsa : Option (List Nat)
  id_rsa : Option (List Nat)
deriving DecidableEq

/-- The candidate list in the fixed order tried by `load_key`. -/
def keyCandidates (d : SshDir) : List (Option (List Nat)) :=
  [d.id_ed25519, d.id_ecdsa, d.id_rsa]

/-- The `flat_map(fs::read).next()` of `load_key`: the contents of the
first file that reads successfully, skipping unreadable ones. -/
def firstRead : List (Option (List Nat)) → Option (List Nat)
  | [] => none
  | some b :: _ => some b
  | none :: t => firstRead t

/-- `load_key` of `src/main.rs`: take the first readable key file (or
fail with `KeyNotFound`), parse it (or fail with `KeyParseError`), and
run the decryption loop when the key is encrypted.  `parse` stands for
`PrivateKey::from_openssh`; `prompts` feeds the password loop. -/
def load_key (d : SshDir) (parse : List Nat → Option PrivateKey)
    (prompts : List PromptOutcome) : Option (Except KeyErr Key) :=
  match firstRead (keyCandidates d) with
  | none => some (Except.error KeyErr.KeyNotFound)
  | some b =>
    match parse b with
    | none => some (Except.error KeyErr.KeyParseError)
    | some (PrivateKey.plain k) => some (Except.ok k)
    | some (PrivateKey.encrypted e) => decrypt e prompts

/-! ### Run traces of the two backends

Each backend body is a straight line of fallible steps joined by `?`:
a step runs only if every earlier step succeeded, and its event is
recorded only when it succeeds itself. -/

/-- Observable events of a backend run. -/
inductive Ev where
  | dirReset
  | repoInit
  | treeWritten
  | buffered
  | signed
  | objectWritten
  | commitStored
  | refEdited
  | branchCreated
deriving DecidableEq

/-- Run a straight line of steps: each pair is an event and whether the
step succeeds; the first failure aborts the run, keeping the events of
the completed steps. -/
def runSteps : List (Ev × Bool) → List Ev
  | [] => []
  | p :: t => if p.2 then p.1 :: runSteps t else []

/-- Environment of a `with_git2` run: success of each fallible call in
source order, the reference store, and the signing inputs. -/
structure Git2Env where
  cwdOk : Bool
  createDirOk : Bool
  initOk : Bool
  indexOk : Bool
  writeTreeOk : Bool
  findTreeOk : Bool
  authorOk : Bool
  bufferOk : Bool
  utf8Ok : Bool
  signOk : Bool
  commitSignedOk : Bool
  findCommitOk : Bool
  refStore : RefStore
  key : Key
  t : Time
  armorF : List Char → List Char

/-- The step line of `with_git2`, in source order: directory reset,
repository init, tree writing, unsigned buffer creation, signing,
signed-commit storage, and finally the forced branch creation. -/
def with_git2_steps (env : Git2Env) : List (Ev × Bool) :=
  [ (Ev.dirReset, env.cwdOk && env.createDirOk)
  , (Ev.repoInit, env.initOk)
  , (Ev.treeWritten, env.indexOk && env.writeTreeOk && env.findTreeOk)
  , (Ev.buffered, env.authorOk && env.bufferOk && env.utf8Ok)
  , (Ev.signed, env.signOk)
  , (Ev.commitStored, env.commitSignedOk && env.findCommitOk)
  , (Ev.branchCreated,
      isOkE (branchCreate env.refStore "main"
        (hashObj (git2Assemble env.key env.t env.armorF).signedBytes) true)) ]

/-- The events of a `with_git2` run. -/
def with_git2_trace (env : Git2Env) : List Ev := runSteps (with_git2_steps env)

/-- Environment of a `with_gix` run: success of each fallible call in
source order, the reference store, and the signing inputs. -/
structure GixEnv where
  cwdOk : Bool
  createDirOk : Bool
  initOk : Bool
  writeTreeOk : Bool
  signOk : Bool
  writeCommitOk : Bool
  refStore : RefStore
  key : Key
  t : Time
  armorF : List Char → List Char

/-- The step line of `with_gix`, in source order: directory reset,
repository init, empty-tree object write, signing, signed-commit object
write, and finally the `HEAD` reference edit. -/
def with_gix_steps (env : GixEnv) : List (Ev × Bool) :=
  [ (Ev.dirReset, env.cwdOk && env.createDirOk)
  , (Ev.repoInit, env.initOk)
  , (Ev.treeWritten, env.writeTreeOk)
  , (Ev.signed, env.signOk)
  , (Ev.objectWritten, env.writeCommitOk)
  , (Ev.refEdited,
      isOkE (editReference env.refStore
        (headEdit (hashObj (gixAssemble env.key env.t env.armorF).signedBytes)
          (gixAssemble env.key env.t env.armorF).signedCommit.message))) ]

/-- The events of a `with_gix` run. -/
def with_gix_trace (env : GixEnv) : List Ev := runSteps (with_gix_steps env)

/-! ### Target directory reset (`remove_dir_all(..).ok(); create_dir_all(..)`) -/

/-- State of a backend's target directory: whether it exists, and the
reference store it contains (standing for its repository content). -/
structure DirState where
  present : Bool
  refs : RefStore

/-- The empty reference store. -/
def emptyDirRefs : RefStore := fun _ => none

/-- The directory reset prefix of each backend run: `remove_dir_all`
with its error silently ignored, then `create_dir_all`.  The previous
content survives exactly when the directory existed and the removal
call failed; in every other case the run sees a fresh empty directory. -/
def resetTargetDir (prior : DirState) (removeOk : Bool) : DirState :=
  if prior.present && !removeOk then prior else ⟨true, emptyDirRefs⟩

/-! ### Helper lemmas -/

theorem concatMap_append (f : α → List Char) (l₁ l₂ : List α) :
    concatMap f (l₁ ++ l₂) = concatMap f l₁ ++ concatMap f l₂ := by
  induction l₁ with
  | nil => simp [concatMap]
  | cons a t ih => simp [concatMap, ih]

/-- Appending a `gpgsig` extra header strictly changes the commit
encoding: the encoded forms of the signed and the unsigned record can
never coincide. -/
theorem encode_ne_with_header (c : Commit) (v : List Char) :
    encodeCommit { c with extra_headers := c.extra_headers ++ [(gpgsigKey, v)] }
      ≠ encodeCommit c := by
  intro h
  have hl := congrArg List.length h
  simp [encodeCommit, concatMap_append, concatMap, encHeader, gpgsigKey,
    List.length_append] at hl
  omega

theorem head_dropWhile_not (p : Char → Bool) :
    ∀ l : List Char, ((l.dropWhile p).head?.all fun c => !p c) = true := by
  intro l
  induction l with
  | nil => rfl
  | cons c t ih =>
    by_cases h : p c
    · simpa [List.dropWhile, h] using ih
    · simp [List.dropWhile, h]

/-- The result of `trim` never ends in a whitespace character. -/
theorem trim_noTrailWs (s : List Char) : noTrailWsB (trim s) = true := by
  have h := head_dropWhile_not isWs ((s.dropWhile isWs).reverse)
  have hrev : (trim s).getLast? = ((s.dropWhile isWs).reverse.dropWhile isWs).head? := by
    simp [trim]
  simpa [noTrailWsB, hrev] using h

theorem foldValue_append (l₁ l₂ : List Char) :
    foldValue (l₁ ++ l₂) = foldValue l₁ ++ foldValue l₂ := by
  induction l₁ with
  | nil => simp [foldValue]
  | cons c t ih => simp [foldValue, ih]

/-- Folding a value with no trailing whitespace again yields a list
with no trailing whitespace (in particular no trailing `\n ` pair). -/
theorem foldValue_noTrailWs (l : List Char) (h : noTrailWsB l = true) :
    noTrailWsB (foldValue l) = true := by
  rcases List.eq_nil_or_concat l with hnil | ⟨t, c, rfl⟩
  · simp [hnil, foldValue, noTrailWsB]
  · simp only [List.concat_eq_append] at h ⊢
    have hc : isWs c = false := by
      simpa [noTrailWsB, List.getLast?_concat] using h
    have hcn : ¬(c = '\n') := by
      intro hh
      rw [hh] at hc
      simp [isWs] at hc
    rw [foldValue_append]
    simp [foldValue, hcn, noTrailWsB, List.getLast?_concat, hc]

/-- In a straight-line run, an event from the tail of the step list can
only appear in the trace if every earlier step succeeded and its event
is in the trace as well. -/
theorem runSteps_mem_ordered :
    ∀ (l₁ l₂ : List (Ev × Bool)) (e : Ev),
      e ∈ runSteps (l₁ ++ l₂) → (∀ p ∈ l₁, p.1 ≠ e) →
      ∀ p ∈ l₁, p.2 = true ∧ p.1 ∈ runSteps (l₁ ++ l₂) := by
  intro l₁
  induction l₁ with
  | nil => intro l₂ e h hne p hp; cases hp
  | cons a t ih =>
    intro l₂ e h hne p hp
    by_cases ha : a.2
    · have htr : runSteps ((a :: t) ++ l₂) = a.1 :: runSteps (t ++ l₂) := by
        simp [runSteps, ha]
      rw [htr] at h
      have hne_a : a.1 ≠ e := hne a (List.mem_cons_self a t)
      have he : e ∈ runSteps (t ++ l₂) := by
        rcases List.mem_cons.mp h with h1 | h2
        · exact absurd h1.symm hne_a
        · exact h2
      rcases List.mem_cons.mp hp with rfl | hpt
      · exact ⟨ha, by rw [htr]; exact List.mem_cons_self _ _⟩
      · have := ih l₂ e he (fun q hq => hne q (List.mem_cons_of_mem a hq)) p hpt
        exact ⟨this.1, by rw [htr]; exact List.mem_cons_of_mem _ this.2⟩
    · have : runSteps ((a :: t) ++ l₂) = [] := by
        simp [runSteps, ha]
      rw [this] at h
      cases h

/-- Core facts about the shared assembly pipeline: the payload signed
is the encoding of the unsigned draft, the signed record carries the
single trimmed `gpgsig` header, the stored bytes re-encode the signed
record, and the signature verifies against the payload but not against
the stored bytes. -/
theorem assembleSigned_spec (d : Commit) (k : Key) (f : List Char → List Char) :
    (assembleSigned d k f).sig.signedPayload = encodeCommit d ∧
    (assembleSigned d k f).signedCommit.extra_headers
        = d.extra_headers ++ [(gpgsigKey, trim ((assembleSigned d k f).sig.armor))] ∧
    (assembleSigned d k f).signedBytes = encodeCommit ((assembleSigned d k f).signedCommit) ∧
    verify k (assembleSigned d k f).sig (assembleSigned d k f).payload = true ∧
    verify k (assembleSigned d k f).sig (assembleSigned d k f).signedBytes = false := by
  refine ⟨rfl, rfl, rfl, ?_, ?_⟩
  · simp [assembleSigned, mkSig, verify]
  · simp [assembleSigned, mkSig, verify]
    intro h
    exact absurd h.symm (encode_ne_with_header d (trim (f (encodeCommit d))))

/-! ### Claims -/

/-- Claim C5: commit encoding is deterministic — for any fixed Commit
value, encoding it twice yields byte-identical output and identical
content hash; `encodeCommit` is a pure function of the record alone,
with no other inputs. -/
theorem c5_encode_deterministic (c : Commit) :
    encodeCommit c = encodeCommit c ∧
    hashObj (encodeCommit c) = hashObj (encodeCommit c) :=
  ⟨rfl, rfl⟩

/-- Claim C1: in both backends the signature is computed over the
commit encoding produced before any `gpgsig` header is present, and
only afterwards is the single `gpgsig` header (with the trimmed armored
signature) appended to the record that is then encoded and stored;
hence the embedded signature verifies against the unsigned payload
bytes and not against the stored signed bytes. -/
theorem c1_sign_unsigned_payload (k : Key) (t : Time) (armorF : List Char → List Char) :
    (gixDraft t).extra_headers = [] ∧
    (gixAssemble k t armorF).sig.signedPayload = encodeCommit (gixDraft t) ∧
    (gixAssemble k t armorF).signedCommit.extra_headers
        = [(gpgsigKey, trim ((gixAssemble k t armorF).sig.armor))] ∧
    (gixAssemble k t armorF).signedBytes
        = encodeCommit ((gixAssemble k t armorF).signedCommit) ∧
    verify k (gixAssemble k t armorF).sig (gixAssemble k t armorF).payload = true ∧
    verify k (gixAssemble k t armorF).sig (gixAssemble k t armorF).signedBytes = false ∧
    (git2Assemble k t armorF).sig.signedPayload = encodeCommit (git2Draft t) ∧
    (git2Assemble k t armorF).signedCommit.extra_headers
        = [(gpgsigKey, trim ((git2Assemble k t armorF).sig.armor))] ∧
    (git2Assemble k t armorF).signedBytes
        = encodeCommit ((git2Assemble k t armorF).signedCommit) ∧
    verify k (git2Assemble k t armorF).sig (git2Assemble k t armorF).payload = true ∧
    verify k (git2Assemble k t armorF).sig (git2Assemble k t armorF).signedBytes = false := by
  have hg := assembleSigned_spec (gixDraft t) k armorF
  have h2 := assembleSigned_spec (git2Draft t) k armorF
  exact ⟨rfl, hg.1, hg.2.1, hg.2.2.1, hg.2.2.2.1, hg.2.2.2.2,
    h2.1, h2.2.1, h2.2.2.1, h2.2.2.2.1, h2.2.2.2.2⟩

/-- Claim C6: in both backends the armored signature is trimmed before
being embedded as the `gpgsig` header value, so the embedded value
never ends in whitespace — in particular it has no trailing newline —
and its folded rendering never ends in an empty continuation line. -/
theorem c6_trimmed_signature (k : Key) (t : Time) (armorF : List Char → List Char)
    (s : List Char) :
    (gixAssemble k t armorF).signedCommit.extra_headers
        = [(gpgsigKey, trim ((gixAssemble k t armorF).sig.armor))] ∧
    (git2Assemble k t armorF).signedCommit.extra_headers
        = [(gpgsigKey, trim ((git2Assemble k t armorF).sig.armor))] ∧
    noTrailWsB (trim s) = true ∧
    noTrailWsB (foldValue (trim s)) = true :=
  ⟨(assembleSigned_spec (gixDraft t) k armorF).2.1,
   (assembleSigned_spec (git2Draft t) k armorF).2.1,
   trim_noTrailWs s,
   foldValue_noTrailWs (trim s) (trim_noTrailWs s)⟩

/-- Claim C7: `with_git2` creates the branch `main` with overwrite
permitted — creating it twice with `force` succeeds both times and the
branch then points at the most recently created commit. -/
theorem c7_branch_overwrite (store : RefStore) (c₁ c₂ : Nat) :
    ∃ s₁ s₂ : RefStore,
      branchCreate store "main" c₁ true = Except.ok s₁ ∧
      branchCreate s₁ "main" c₂ true = Except.ok s₂ ∧
      s₂ (branchName "main") = some c₂ := by
  refine ⟨fun m => if m = branchName "main" then some c₁ else store m, ?_, ?_, ?_, ?_⟩
  · exact fun m => if m = branchName "main" then some c₂
      else if m = branchName "main" then some c₁ else store m
  · cases h : store (branchName "main") <;> simp [branchCreate, h]
  · simp [branchCreate]
  · simp

/-- Claim C2: the `HEAD` edit of `with_gix` uses precondition
`MustNotExist` with a reflog entry built from action `commit`, the
commit message and parent count 0; on any store where the reference
exists the edit fails with `RefConflict`, and performing it twice
against the same fresh reference fails the second time while the
target remains the one set by the first edit. -/
theorem c2_head_edit (store store' : RefStore) (x tg₁ tg₂ : Nat) (m₁ m₂ : List Char)
    (hex : store' "HEAD" = some x) (hfresh : store "HEAD" = none) :
    (headEdit tg₁ m₁).expected = PreviousValue.MustNotExist ∧
    (headEdit tg₁ m₁).log.message = logMessage "commit" m₁ 0 ∧
    editReference store' (headEdit tg₂ m₂) = Except.error GitErr.RefConflict ∧
    ∃ s₁ : RefStore,
      editReference store (headEdit tg₁ m₁) = Except.ok s₁ ∧
      s₁ "HEAD" = some tg₁ ∧
      editReference s₁ (headEdit tg₂ m₂) = Except.error GitErr.RefConflict := by
  refine ⟨rfl, rfl, ?_, fun n => if n = "HEAD" then some tg₁ else store n, ?_, ?_, ?_⟩
  · simp [editReference, headEdit, hex]
  · simp [editReference, headEdit, hfresh]
  · simp
  · simp [editReference, headEdit]

theorem c2_head_edit_witness :
    ((fun _ => some 5 : RefStore) "HEAD" = some 5) ∧
    ((fun _ => none : RefStore) "HEAD" = none) ∧
    ((headEdit 1 []).expected = PreviousValue.MustNotExist ∧
      (headEdit 1 []).log.message = logMessage "commit" [] 0 ∧
      editReference (fun _ => some 5) (headEdit 2 []) = Except.error GitErr.RefConflict ∧
      ∃ s₁ : RefStore,
        editReference (fun _ => none) (headEdit 1 []) = Except.ok s₁ ∧
        s₁ "HEAD" = some 1 ∧
        editReference s₁ (headEdit 2 []) = Except.error GitErr.RefConflict) :=
  ⟨rfl, rfl, c2_head_edit (fun _ => none) (fun _ => some 5) 5 1 2 [] [] rfl rfl⟩

/-- A concrete parse function: only the byte string `[1]` is a valid
(plain) OpenSSH key. -/
def parseEx : List Nat → Option PrivateKey :=
  fun b => if b = [1] then some (PrivateKey.plain ⟨7⟩) else none

/-- Claim C3 counterexample: with `id_ed25519` present but unparsable
and `id_ecdsa` present and parseable, some file in the list exists and
parses — the claim then demands success with that key — but `load_key`
takes the first readable file only and fails with `KeyParseError`. -/
theorem c3_counterexample :
    parseEx [0] = none ∧
    parseEx [1] = some (PrivateKey.plain ⟨7⟩) ∧
    load_key ⟨some [0], some [1], none⟩ parseEx []
      = some (Except.error KeyErr.KeyParseError) :=
  ⟨rfl, rfl, rfl⟩

/-- Claim C3 (amended): `load_key` tries the key identities in the
fixed order ed25519, ecdsa, rsa and takes the first file that reads
successfully; only that file is parsed.  If no file is readable it
fails with `KeyNotFound`; if the first readable file fails to parse it
fails with `KeyParseError` (even when a later file would parse); if it
parses as an unencrypted key, loading succeeds with that key. -/
theorem c3_load_first_readable (d : SshDir) (parse : List Nat → Option PrivateKey)
    (b : List Nat) (k : Key) (prompts : List PromptOutcome) :
    keyCandidates d = [d.id_ed25519, d.id_ecdsa, d.id_rsa] ∧
    (firstRead (keyCandidates d) = none →
      load_key d parse prompts = some (Except.error KeyErr.KeyNotFound)) ∧
    (firstRead (keyCandidates d) = some b → parse b = none →
      load_key d parse prompts = some (Except.error KeyErr.KeyParseError)) ∧
    (firstRead (keyCandidates d) = some b → parse b = some (PrivateKey.plain k) →
      load_key d parse prompts = some (Except.ok k)) := by
  refine ⟨rfl, ?_, ?_, ?_⟩
  · intro h1
    simp [load_key, h1]
  · intro h1 h2
    simp [load_key, h1, h2]
  · intro h1 h2
    simp [load_key, h1, h2]

theorem c3_load_first_readable_witness :
    load_key ⟨none, none, none⟩ parseEx [] = some (Except.error KeyErr.KeyNotFound) ∧
    load_key ⟨some [0], some [1], none⟩ parseEx []
      = some (Except.error KeyErr.KeyParseError) ∧
    load_key ⟨some [1], none, none⟩ parseEx [] = some (Except.ok ⟨7⟩) :=
  ⟨(c3_load_first_readable ⟨none, none, none⟩ parseEx [0] ⟨7⟩ []).2.1 rfl,
   (c3_load_first_readable ⟨some [0], some [1], none⟩ parseEx [0] ⟨7⟩ []).2.2.1 rfl rfl,
   (c3_load_first_readable ⟨some [1], none, none⟩ parseEx [1] ⟨7⟩ []).2.2.2 rfl rfl⟩

theorem decrypt_all_wrong (key : EncKey) :
    ∀ ws : List String, (∀ w ∈ ws, w ≠ key.password) →
      decrypt key (ws.map PromptOutcome.pw) = none ∧
      decrypt key (ws.map PromptOutcome.pw ++ [PromptOutcome.cancel])
        = some (Except.error KeyErr.Cancelled) := by
  intro ws
  induction ws with
  | nil => intro _; exact ⟨rfl, rfl⟩
  | cons w t ih =>
    intro h
    have hw : w ≠ key.password := h w (List.mem_cons_self w t)
    have ht := ih fun q hq => h q (List.mem_cons_of_mem w hq)
    exact ⟨by simp [decrypt, hw, ht.1], by simp [decrypt, hw, ht.2]⟩

/-- Claim C4: the decryption loop retries after each wrong password and
terminates at the first correct one — the sequence wrong, wrong,
correct succeeds exactly on the third attempt and yields a key usable
for signing — while a prompt sequence of wrong passwords ending in a
cancellation fails with `Cancelled` without ever unlocking. -/
theorem c4_retry_loop (key : EncKey) (w₁ w₂ : String) (ws : List String)
    (payload : List Char) (armorF : List Char → List Char)
    (h₁ : w₁ ≠ key.password) (h₂ : w₂ ≠ key.password)
    (hws : ∀ w ∈ ws, w ≠ key.password) :
    decrypt key [PromptOutcome.pw w₁, PromptOutcome.pw w₂, PromptOutcome.pw key.password]
        = some (Except.ok key.plain) ∧
    decrypt key [PromptOutcome.pw w₁] = none ∧
    decrypt key [PromptOutcome.pw w₁, PromptOutcome.pw w₂] = none ∧
    verify key.plain (mkSig key.plain armorF payload) payload = true ∧
    decrypt key (ws.map PromptOutcome.pw) = none ∧
    decrypt key (ws.map PromptOutcome.pw ++ [PromptOutcome.cancel])
        = some (Except.error KeyErr.Cancelled) := by
  have hall := decrypt_all_wrong key ws hws
  refine ⟨?_, ?_, ?_, ?_, hall.1, hall.2⟩
  · simp [decrypt, h₁, h₂]
  · simp [decrypt, h₁]
  · simp [decrypt, h₁, h₂]
  · simp [verify, mkSig]

theorem c4_retry_loop_witness :
    decrypt ⟨"s3cret", ⟨1⟩⟩
        [PromptOutcome.pw "a", PromptOutcome.pw "b", PromptOutcome.pw "s3cret"]
      = some (Except.ok ⟨1⟩) ∧
    decrypt ⟨"s3cret", ⟨1⟩⟩ [PromptOutcome.pw "a"] = none ∧
    decrypt ⟨"s3cret", ⟨1⟩⟩ [PromptOutcome.pw "a", PromptOutcome.pw "b"] = none ∧
    verify ⟨1⟩ (mkSig ⟨1⟩ (fun _ => []) []) [] = true ∧
    decrypt ⟨"s3cret", ⟨1⟩⟩ (["c"].map PromptOutcome.pw) = none ∧
    decrypt ⟨"s3cret", ⟨1⟩⟩ (["c"].map PromptOutcome.pw ++ [PromptOutcome.cancel])
      = some (Except.error KeyErr.Cancelled) :=
  c4_retry_loop ⟨"s3cret", ⟨1⟩⟩ "a" "b" ["c"] [] (fun _ => [])
    (by decide) (by decide) (by decide)

/-- Claim C10: the password loop has no attempt bound — any finite
stream of wrong passwords leaves it still prompting, and it returns a
value exactly when the prompt stream contains a cancellation or the
correct password. -/
theorem c10_unbounded (key : EncKey) (w : String) (n : Nat) (ps : List PromptOutcome)
    (hw : w ≠ key.password) :
    decrypt key (List.replicate n (PromptOutcome.pw w)) = none ∧
    ((decrypt key ps).isSome = true ↔
      ∃ o ∈ ps, o = PromptOutcome.cancel ∨ o = PromptOutcome.pw key.password) := by
  constructor
  · induction n with
    | zero => rfl
    | succ m ih => simpa [List.replicate, decrypt, hw] using ih
  · induction ps with
    | nil => simp [decrypt]
    | cons o t ih =>
      cases o with
      | cancel => simp [decrypt]
      | pw p =>
        by_cases hp : p = key.password
        · simp [decrypt, hp]
        · simp only [decrypt, hp, if_false, List.mem_cons]
          rw [ih]
          constructor
          · intro ⟨o, ho, hor⟩
            exact ⟨o, Or.inr ho, hor⟩
          · intro ⟨o, ho, hor⟩
            rcases ho with rfl | ho
            · rcases hor with h | h
              · cases h
              · cases h
                exact absurd rfl hp
            · exact ⟨o, ho, hor⟩

theorem c10_unbounded_witness :
    decrypt ⟨"s", ⟨2⟩⟩ (List.replicate 3 (PromptOutcome.pw "x")) = none ∧
    ((decrypt ⟨"s", ⟨2⟩⟩ [PromptOutcome.pw "s"]).isSome = true ↔
      ∃ o ∈ [PromptOutcome.pw "s"],
        o = PromptOutcome.cancel ∨ o = PromptOutcome.pw "s") :=
  c10_unbounded ⟨"s", ⟨2⟩⟩ "x" 3 [PromptOutcome.pw "s"] (by decide)

/-- Claim C8: in each backend, the single reference mutation happens
only after signing and the writing of the signed commit have
succeeded — whenever the reference event is in the run's trace, the
signing and object-write events are in the trace as well and those
steps succeeded. -/
theorem c8_ref_after_sign (e2 : Git2Env) (eg : GixEnv) :
    (Ev.branchCreated ∈ with_git2_trace e2 →
      Ev.signed ∈ with_git2_trace e2 ∧ Ev.commitStored ∈ with_git2_trace e2 ∧
      e2.signOk = true ∧ e2.commitSignedOk = true) ∧
    (Ev.refEdited ∈ with_gix_trace eg →
      Ev.signed ∈ with_gix_trace eg ∧ Ev.objectWritten ∈ with_gix_trace eg ∧
      eg.signOk = true ∧ eg.writeCommitOk = true) := by
  constructor
  · intro h
    have horder := runSteps_mem_ordered
      [ (Ev.dirReset, e2.cwdOk && e2.createDirOk)
      , (Ev.repoInit, e2.initOk)
      , (Ev.treeWritten, e2.indexOk && e2.writeTreeOk && e2.findTreeOk)
      , (Ev.buffered, e2.authorOk && e2.bufferOk && e2.utf8Ok)
      , (Ev.signed, e2.signOk)
      , (Ev.commitStored, e2.commitSignedOk && e2.findCommitOk) ]
      [ (Ev.branchCreated,
          isOkE (branchCreate e2.refStore "main"
            (hashObj (git2Assemble e2.key e2.t e2.armorF).signedBytes) true)) ]
      Ev.branchCreated h
      (by intro p hp
          rcases List.mem_cons.mp hp with rfl | hp
          · simp
          rcases List.mem_cons.mp hp with rfl | hp
          · simp
          rcases List.mem_cons.mp hp with rfl | hp
          · simp
          rcases List.mem_cons.mp hp with rfl | hp
          · simp
          rcases List.mem_cons.mp hp with rfl | hp
          · simp
          rcases List.mem_cons.mp hp with rfl | hp
          · simp
          cases hp)
    have hs := horder (Ev.signed, e2.signOk) (by simp)
    have hc := horder (Ev.commitStored, e2.commitSignedOk && e2.findCommitOk) (by simp)
    have hcs : e2.commitSignedOk = true := by
      have h1 := hc.1
      simp at h1
      exact h1.1
    exact ⟨hs.2, hc.2, hs.1, hcs⟩
  · intro h
    have horder := runSteps_mem_ordered
      [ (Ev.dirReset, eg.cwdOk && eg.createDirOk)
      , (Ev.repoInit, eg.initOk)
      , (Ev.treeWritten, eg.writeTreeOk)
      , (Ev.signed, eg.signOk)
      , (Ev.objectWritten, eg.writeCommitOk) ]
      [ (Ev.refEdited,
          isOkE (editReference eg.refStore
            (headEdit (hashObj (gixAssemble eg.key eg.t eg.armorF).signedBytes)
              (gixAssemble eg.key eg.t eg.armorF).signedCommit.message))) ]
      Ev.refEdited h
      (by intro p hp
          rcases List.mem_cons.mp hp with rfl | hp
          · simp
          rcases List.mem_cons.mp hp with rfl | hp
          · simp
          rcases List.mem_cons.mp hp with rfl | hp
          · simp
          rcases List.mem_cons.mp hp with rfl | hp
          · simp
          rcases List.mem_cons.mp hp with rfl | hp
          · simp
          cases hp)
    have hs := horder (Ev.signed, eg.signOk) (by simp)
    have hw := horder (Ev.objectWritten, eg.writeCommitOk) (by simp)
    exact ⟨hs.2, hw.2, hs.1, hw.1⟩

/-- A `with_git2` environment where every step succeeds on a fresh
repository. -/
def g2all : Git2Env :=
  ⟨true, true, true, true, true, true, true, true, true, true, true, true,
    fun _ => none, ⟨0⟩, ⟨0, 0⟩, fun _ => []⟩

/-- A `with_gix` environment where every step succeeds on a fresh
repository. -/
def gxall : GixEnv :=
  ⟨true, true, true, true, true, true, fun _ => none, ⟨0⟩, ⟨0, 0⟩, fun _ => []⟩

theorem c8_ref_after_sign_witness :
    (Ev.branchCreated ∈ with_git2_trace g2all) ∧
    (Ev.refEdited ∈ with_gix_trace gxall) ∧
    (Ev.signed ∈ with_git2_trace g2all ∧ Ev.commitStored ∈ with_git2_trace g2all ∧
      g2all.signOk = true ∧ g2all.commitSignedOk = true) ∧
    (Ev.signed ∈ with_gix_trace gxall ∧ Ev.objectWritten ∈ with_gix_trace gxall ∧
      gxall.signOk = true ∧ gxall.writeCommitOk = true) :=
  ⟨by decide, by decide,
   (c8_ref_after_sign g2all gxall).1 (by decide),
   (c8_ref_after_sign g2all gxall).2 (by decide)⟩

/-- A directory left over by a previous run: it exists and contains a
`HEAD` reference. -/
def dirtyDir : DirState :=
  ⟨true, fun n => if n = "HEAD" then some 1 else none⟩

/-- Claim C9 counterexample: the directory reset silently ignores a
failing `remove_dir_all`, so when removal fails on a directory kept
from a previous run the old `HEAD` survives into the new run and the
`MustNotExist` reference edit hits it — contradicting the claim that
every run operates on an empty repository and never encounters a
pre-existing `HEAD`. -/
theorem c9_counterexample :
    dirtyDir.present = true ∧
    (resetTargetDir dirtyDir false).refs "HEAD" = some 1 ∧
    errOf (editReference (resetTargetDir dirtyDir false).refs (headEdit 2 []))
      = some GitErr.RefConflict :=
  ⟨rfl, rfl, rfl⟩

/-- Claim C9 (amended): each backend run begins by deleting its target
directory, silently ignoring deletion failure, then creates it afresh;
whenever the deletion succeeds or the directory was absent, the run
operates on an empty repository — no reference pre-exists, so the
`MustNotExist` edit of a re-run succeeds.  Only a failed deletion of an
existing directory can leak previous state into the run. -/
theorem c9_fresh_when_remove_ok (prior : DirState) (removeOk : Bool) (n : String)
    (tg : Nat) (m : List Char)
    (h : removeOk = true ∨ prior.present = false) :
    (resetTargetDir prior removeOk).present = true ∧
    (resetTargetDir prior removeOk).refs n = none ∧
    isOkE (editReference (resetTargetDir prior removeOk).refs (headEdit tg m)) = true := by
  have hres : resetTargetDir prior removeOk = ⟨true, emptyDirRefs⟩ := by
    rcases h with rfl | hp
    · simp [resetTargetDir]
    · simp [resetTargetDir, hp]
  rw [hres]
  exact ⟨rfl, rfl, rfl⟩

theorem c9_fresh_when_remove_ok_witness :
    (resetTargetDir dirtyDir true).present = true ∧
    (resetTargetDir dirtyDir true).refs "HEAD" = none ∧
    isOkE (editReference (resetTargetDir dirtyDir true).refs (headEdit 2 [])) = true :=
  c9_fresh_when_remove_ok dirtyDir true "HEAD" 2 [] (Or.inl rfl)

end Gitsign
